import Mathlib

/-!
Verification of the InputAnalyzer spectral-monitoring core.

The source `src/src/InputAnalyzerApp.cpp` is a Cinder sample application.
The app-level logic (mouse handling, the diagnostic probe `printBinInfo`,
the bin index used by `drawSpectralCentroid`, the configuration passed to
`MonitorSpectralNode::Format`) is embedded from the source directly.
The signal-processing core it calls into (bin/frequency mapping, spectral
centroid, configuration validation, snapshot publication, accumulation)
lives in the Cinder audio library, outside the repository; those parts are
modelled from the specification, as indicated by each doc comment.

Real-valued audio quantities are modelled as exact rationals (`ℚ`) where
the code's arithmetic is plain field arithmetic, and as reals (`ℝ`) where
a square root or logarithm is involved.
-/

namespace InputAnalyzer

/-! ### Bin mapper -/

/-- Modelled from the spec: the Bin Mapper's
`frequencyForBin(k) = k * sampleRate / FFT_SIZE`
(Cinder's `MonitorSpectralNode::getFreqForBin`, outside src/). -/
def frequencyForBin (sampleRate : ℚ) (fftSize : ℕ) (k : ℕ) : ℚ :=
  (k : ℚ) * sampleRate / (fftSize : ℚ)

/-- Modelled from the spec: the Bin Mapper's
`binForFrequency(f) = round(f * FFT_SIZE / sampleRate)`,
clamped to `[0, FFT_SIZE/2 - 1]` (not present in src/). -/
def binForFrequency (sampleRate : ℚ) (fftSize : ℕ) (f : ℚ) : ℕ :=
  min (fftSize / 2 - 1) (Int.toNat (max 0 (round (f * (fftSize : ℚ) / sampleRate))))

/-- The bin width `sampleRate / FFT_SIZE`, as computed by `printBinInfo`
(source line 234): `getFreqForBin(1) - getFreqForBin(0)`. -/
def binFreqWidth (sampleRate : ℚ) (fftSize : ℕ) : ℚ :=
  frequencyForBin sampleRate fftSize 1 - frequencyForBin sampleRate fftSize 0

/-! ### Configuration validation -/

/-- Whether a natural number is a power of two, decided by searching the
exponents up to `n` (any exponent of a power of two is below the number). -/
def isPowTwo (n : ℕ) : Bool :=
  (List.range (n + 1)).any (fun k => n == 2 ^ k)

/-- The error taxonomy of the setup stage. -/
inductive ConfigError where
  | invalidConfiguration : ConfigError
  deriving DecidableEq, Repr

/-- A validated monitor configuration. -/
structure MonitorConfig where
  fftSize : ℕ
  windowSize : ℕ
  deriving DecidableEq, Repr

/-- Modelled from the spec: construction of the spectral monitor validates
the configuration (`InvalidConfiguration`: FFT size not a power of two, or
smaller than the window size — fatal at setup).  The validation itself is
inside Cinder's `MonitorSpectralNode`, outside src/. -/
def constructMonitor (fftSize windowSize : ℕ) : Except ConfigError MonitorConfig :=
  if isPowTwo fftSize && windowSize ≤ fftSize then
    Except.ok ⟨fftSize, windowSize⟩
  else
    Except.error ConfigError.invalidConfiguration

/-- The configuration hard-coded in `InputAnalyzer::setup`
(source line 62): `fftSize( 2048 ).windowSize( 1024 )`. -/
def setupConfig : ℕ × ℕ := (2048, 1024)

/-! ### App-level quantities embedded from the source -/

/-- The number of magnitude values in the spectrum, `getFftSize() / 2`
(`printBinInfo`, source line 231: `size_t numBins = ... getFftSize() / 2`). -/
def numBins (fftSize : ℕ) : ℕ := fftSize / 2

/-- The bin index `drawSpectralCentroid` derives and then uses, unclamped,
to index the magnitude spectrum (source lines 153 and 163:
`float bin = mMonitorSpectralNode->getFftSize() / 2;` followed by
`audio::linearToDecibel( mMagSpectrum[bin] )`). -/
def drawCentroidBinIndex (fftSize : ℕ) : ℕ := fftSize / 2

/-- The clamped bin index computed by `printBinInfo` (source line 232):
`std::min( numBins - 1, size_t( (numBins * (mouseX - x1)) / width ) )`.
The conversion of the non-negative float to `size_t` truncates, modelled by
the floor; `mouseDown` only calls this with `mouseX` inside the plot
bounds, so the truncated value is non-negative. -/
def printBinIndex (fftSize : ℕ) (mouseX x1 width : ℚ) : ℕ :=
  min (numBins fftSize - 1)
    (Int.toNat ⌊(numBins fftSize : ℚ) * (mouseX - x1) / width⌋)

/-! ### Decibel conversion and spectral centroid -/

/-- Modelled from the spec: `db = 20 * log10(max(magnitude, floor))` with a
small positive floor (1e-6) preventing `log10(0)` (Cinder
`audio::linearToDecibel`, outside src/). -/
noncomputable def linearToDecibel (m : ℝ) : ℝ :=
  20 * Real.logb 10 (max m (1 / 1000000))

/-- The numerator of the centroid: `Σ(mag[k] * freq(k))` over the bins of
the magnitude list. -/
noncomputable def weightedFreqSum (sampleRate : ℚ) (fftSize : ℕ) (mags : List ℝ) : ℝ :=
  ∑ k ∈ Finset.range mags.length,
    mags.getD k 0 * ((frequencyForBin sampleRate fftSize k : ℚ) : ℝ)

/-- Modelled from the spec: the spectral centroid is the magnitude-weighted
mean of bin frequencies, `Σ(mag[k] * freq(k)) / Σ(mag[k])`, and 0 when
`Σ(mag[k])` is exactly 0 (Cinder `dsp::spectralCentroid`, reached through
`MonitorSpectralNode::getSpectralCentroid`, outside src/). -/
noncomputable def spectralCentroid (sampleRate : ℚ) (fftSize : ℕ) (mags : List ℝ) : ℝ :=
  if mags.sum = 0 then 0 else weightedFreqSum sampleRate fftSize mags / mags.sum

/-! ### SpectralFrame and one analysis cycle -/

/-- The output of one analysis cycle: the magnitude per bin and the scalar
spectral centroid. -/
structure SpectralFrame where
  mags : List ℝ
  centroid : ℝ

/-- Modelled from the spec: the magnitude of one FFT output value is
`|X[k]|` normalized by a fixed positive scale factor (inside Cinder's
`MonitorSpectralNode`, outside src/). -/
noncomputable def binMagnitude (scale : ℝ) (z : ℝ × ℝ) : ℝ :=
  Real.sqrt (z.1 ^ 2 + z.2 ^ 2) / scale

/-- Modelled from the spec: one analysis cycle turns the FFT output
(`FFT_SIZE/2 + 1` complex values; the frame keeps the first `FFT_SIZE/2`
magnitudes) into a SpectralFrame with its centroid. -/
noncomputable def analysisFrame (sampleRate : ℚ) (fftSize : ℕ) (scale : ℝ)
    (spectrum : List (ℝ × ℝ)) : SpectralFrame :=
  let mags := (spectrum.take (numBins fftSize)).map (binMagnitude scale)
  ⟨mags, spectralCentroid sampleRate fftSize mags⟩

/-! ### Published snapshot -/

/-- Modelled from the spec: the double-buffered snapshot hand-off.  The
producer fills a private working buffer one magnitude at a time and then
swaps the completed, immutable frame into the published slot atomically;
the reader loads the published slot atomically.  `history` is a ghost field
recording every frame that has been fully published. -/
structure SnapshotState where
  published : List ℚ
  working : List ℚ
  history : List (List ℚ)
  deriving DecidableEq

/-- The atomic steps of the producer (`write`, `publish`) and of the reader
(`read`) whose interleavings are considered. -/
inductive SnapEvent where
  | write (v : ℚ)
  | publish
  | read
  deriving DecidableEq

/-- One atomic step of the snapshot hand-off; a `read` also returns the
frame the reader observes. -/
def snapStep : SnapshotState → SnapEvent → SnapshotState × Option (List ℚ)
  | s, SnapEvent.write v => ({ s with working := s.working ++ [v] }, none)
  | s, SnapEvent.publish => (⟨s.working, [], s.working :: s.history⟩, none)
  | s, SnapEvent.read => (s, some s.published)

/-- Run an arbitrary interleaving of producer and reader steps, collecting
every frame returned to the reader. -/
def snapRun : SnapshotState → List SnapEvent → SnapshotState × List (List ℚ)
  | s, [] => (s, [])
  | s, e :: es =>
    ((snapRun (snapStep s e).1 es).1,
      (snapStep s e).2.toList ++ (snapRun (snapStep s e).1 es).2)

/-! ### Monitor accumulation -/

/-- The spectral monitor's state-machine modes. -/
inductive MonitorMode where
  | idle
  | accumulating
  | analyzing
  | published
  deriving DecidableEq

/-- Modelled from the spec: the monitor accumulates incoming samples and,
whenever at least `windowSize` are available, analyzes one window
(hop = window) and publishes the frame, keeping the remainder buffered. -/
structure MonitorState where
  windowSize : ℕ
  mode : MonitorMode
  buffer : List ℚ
  lastFrame : List ℚ

/-- Modelled from the spec: accept one AudioFrame chunk.  `analyze` stands
for the window + zero-pad + FFT + magnitude pipeline applied to a full
window.  When the buffer stays short of `windowSize` the monitor simply
keeps accumulating; it is a total function, so it can neither block nor
raise. -/
def feedChunk (analyze : List ℚ → List ℚ) (s : MonitorState) (chunk : List ℚ) :
    MonitorState :=
  let buf := s.buffer ++ chunk
  if s.windowSize ≤ buf.length then
    { s with mode := MonitorMode.accumulating, buffer := buf.drop s.windowSize,
             lastFrame := analyze (buf.take s.windowSize) }
  else
    { s with mode := MonitorMode.accumulating, buffer := buf }

/-- Feed a whole sequence of chunks, in order. -/
def feedAll (analyze : List ℚ → List ℚ) (s : MonitorState) (chunks : List (List ℚ)) :
    MonitorState :=
  chunks.foldl (feedChunk analyze) s

/-! ### Plot bounds, diagnostic line and mouse handler -/

/-- An axis-aligned rectangle, as Cinder's `Rectf`. -/
structure Rect where
  x1 : ℚ
  y1 : ℚ
  x2 : ℚ
  y2 : ℚ

/-- The rectangle's width, `getWidth() = x2 - x1`. -/
def Rect.width (r : Rect) : ℚ := r.x2 - r.x1

/-- Modelled from the spec's collaborator (Cinder `RectT::contains`,
outside src/): a point is inside when both coordinates lie within the
inclusive bounds. -/
def Rect.containsPt (r : Rect) (px py : ℚ) : Bool :=
  decide (r.x1 ≤ px) && decide (px ≤ r.x2) && decide (r.y1 ≤ py) && decide (py ≤ r.y2)

/-- The state of the app a mouse event can touch: the spectrum plot bounds
and the copied-out magnitude spectrum, plus the audio configuration. -/
structure AppState where
  plotBounds : Rect
  magSpectrum : List ℝ
  sampleRate : ℚ
  fftSize : ℕ

/-- The console line built by `printBinInfo` (source line 238), given the
rendered numeric fields.  The source spells the second field `freqency`. -/
def binInfoLine (bin : ℕ) (lo hi mag : String) : String :=
  "bin: " ++ toString bin ++ ", freqency (hertz): " ++ lo ++ " - " ++ hi
    ++ ", magnitude (decibels): " ++ mag

/-- The diagnostic probe `printBinInfo` (source lines 229-239): clamp the
mouse-derived bin index, look up the bin's frequency range and magnitude,
and emit one console line.  The platform's float-to-text rendering is
abstracted as `rf` (frequency fields) and `rm` (decibel field). -/
noncomputable def printBinInfo (st : AppState) (mouseX : ℚ)
    (rf : ℚ → String) (rm : ℝ → String) : String :=
  let bin := printBinIndex st.fftSize mouseX st.plotBounds.x1 st.plotBounds.width
  let w := binFreqWidth st.sampleRate st.fftSize
  let freq := frequencyForBin st.sampleRate st.fftSize bin
  let mag := linearToDecibel (st.magSpectrum.getD bin 0)
  binInfoLine bin (rf freq) (rf (freq + w)) (rm mag)

/-- The mouse handler `InputAnalyzer::mouseDown` (source lines 74-78): if
the position is inside the spectrum plot's bounds, probe the bin under the
cursor; otherwise do nothing.  Returns the (unchanged) state and the list
of console lines emitted. -/
noncomputable def mouseDown (st : AppState) (px py : ℚ)
    (rf : ℚ → String) (rm : ℝ → String) : AppState × List String :=
  if st.plotBounds.containsPt px py then (st, [printBinInfo st px rf rm])
  else (st, [])

/-- Modelled from the spec's words, for comparison with the source's
output: a diagnostic line of the documented form
`bin: <int>, frequency (hertz): <float> - <float>, magnitude (decibels): <float>`,
at the level of character sequences. -/
def specFormatData (b lo hi mag : List Char) : List Char :=
  ("bin: ").data ++ b ++ (", frequency (hertz): ").data ++ lo ++ (" - ").data
    ++ hi ++ (", magnitude (decibels): ").data ++ mag

/-! ### Helper lemmas about `isPowTwo` -/

theorem isPowTwo_iff (n : ℕ) : isPowTwo n = true ↔ ∃ k, n = 2 ^ k := by
  unfold isPowTwo
  rw [List.any_eq_true]
  constructor
  · rintro ⟨k, _, hk⟩
    exact ⟨k, by simpa using hk⟩
  · rintro ⟨k, rfl⟩
    refine ⟨k, List.mem_range.mpr ?_, by simp⟩
    have := Nat.lt_two_pow k
    omega

/-! ### Configuration validation lemmas -/

theorem constructMonitor_ok_iff (f w : ℕ) :
    constructMonitor f w = Except.ok ⟨f, w⟩ ↔ ((∃ k, f = 2 ^ k) ∧ w ≤ f) := by
  rw [constructMonitor]
  by_cases hb : (isPowTwo f && decide (w ≤ f)) = true
  · rw [if_pos hb]
    rw [Bool.and_eq_true, isPowTwo_iff, decide_eq_true_iff] at hb
    simp [hb]
  · rw [if_neg hb]
    rw [Bool.and_eq_true, isPowTwo_iff, decide_eq_true_iff] at hb
    simp [hb]

theorem constructMonitor_error_iff (f w : ℕ) :
    constructMonitor f w = Except.error ConfigError.invalidConfiguration ↔
      ¬ ((∃ k, f = 2 ^ k) ∧ w ≤ f) := by
  rw [constructMonitor]
  by_cases hb : (isPowTwo f && decide (w ≤ f)) = true
  · rw [if_pos hb]
    rw [Bool.and_eq_true, isPowTwo_iff, decide_eq_true_iff] at hb
    simp [hb]
  · rw [if_neg hb]
    rw [Bool.and_eq_true, isPowTwo_iff, decide_eq_true_iff] at hb
    simp [hb]

/-! ### Bin mapper lemmas -/

theorem binForFrequency_freq (sr : ℚ) (fftSize k : ℕ)
    (hsr : 0 < sr) (hk : k < fftSize / 2) :
    binForFrequency sr fftSize (frequencyForBin sr fftSize k) = k := by
  have hN : (fftSize : ℚ) ≠ 0 := Nat.cast_ne_zero.mpr (by omega)
  rw [binForFrequency, frequencyForBin]
  have harg : (k : ℚ) * sr / (fftSize : ℚ) * (fftSize : ℚ) / sr = (k : ℚ) := by
    field_simp
  rw [harg, round_natCast]
  have hmax : max (0 : ℤ) (k : ℤ) = (k : ℤ) := max_eq_right (Int.natCast_nonneg k)
  rw [hmax, Int.toNat_natCast]
  omega

/-! ### Centroid lemmas -/

theorem frequencyForBin_nonneg (sr : ℚ) (fftSize k : ℕ) (hsr : 0 ≤ sr) :
    0 ≤ frequencyForBin sr fftSize k := by
  rw [frequencyForBin]
  exact div_nonneg (mul_nonneg (Nat.cast_nonneg k) hsr) (Nat.cast_nonneg fftSize)

theorem frequencyForBin_le_nyquist (sr : ℚ) (fftSize k : ℕ)
    (hsr : 0 ≤ sr) (hk : k < fftSize / 2) :
    frequencyForBin sr fftSize k ≤ sr / 2 := by
  have hN : 0 < fftSize := by omega
  have h2k : 2 * k ≤ fftSize := by omega
  rw [frequencyForBin, div_le_div_iff₀ (by exact_mod_cast hN) (by norm_num : (0:ℚ) < 2)]
  have hcast : 2 * (k : ℚ) ≤ (fftSize : ℚ) := by exact_mod_cast h2k
  nlinarith [mul_le_mul_of_nonneg_right hcast hsr]

theorem list_sum_eq_sum_getD (l : List ℝ) :
    l.sum = ∑ k ∈ Finset.range l.length, l.getD k 0 := by
  induction l with
  | nil => simp
  | cons a t ih =>
    rw [List.sum_cons, List.length_cons, Finset.sum_range_succ']
    simp only [List.getD_cons_succ, List.getD_cons_zero]
    rw [← ih]
    ring

theorem list_getD_nonneg (l : List ℝ) (hm : ∀ x ∈ l, 0 ≤ x) (k : ℕ) :
    0 ≤ l.getD k 0 := by
  by_cases hk : k < l.length
  · rw [List.getD_eq_getElem l 0 hk]
    exact hm _ (List.getElem_mem hk)
  · rw [List.getD_eq_default l 0 (by omega)]

theorem spectralCentroid_mem_range (sr : ℚ) (fftSize : ℕ) (mags : List ℝ)
    (hm : ∀ x ∈ mags, 0 ≤ x) (hlen : mags.length ≤ fftSize / 2) (hsr : 0 ≤ sr) :
    0 ≤ spectralCentroid sr fftSize mags ∧
      spectralCentroid sr fftSize mags ≤ (sr : ℝ) / 2 := by
  have hsrR : (0 : ℝ) ≤ (sr : ℝ) := by exact_mod_cast hsr
  rw [spectralCentroid]
  by_cases hz : mags.sum = 0
  · rw [if_pos hz]
    exact ⟨le_refl 0, by positivity⟩
  · rw [if_neg hz]
    have hsum_nonneg : 0 ≤ mags.sum := List.sum_nonneg hm
    have hsum_pos : 0 < mags.sum := lt_of_le_of_ne hsum_nonneg (Ne.symm hz)
    have hterm : ∀ k ∈ Finset.range mags.length,
        0 ≤ mags.getD k 0 * ((frequencyForBin sr fftSize k : ℚ) : ℝ) := by
      intro k _
      apply mul_nonneg (list_getD_nonneg mags hm k)
      exact_mod_cast frequencyForBin_nonneg sr fftSize k hsr
    have hnum_nonneg : 0 ≤ weightedFreqSum sr fftSize mags :=
      Finset.sum_nonneg hterm
    have hnum_le : weightedFreqSum sr fftSize mags ≤ (sr : ℝ) / 2 * mags.sum := by
      rw [weightedFreqSum, list_sum_eq_sum_getD, Finset.mul_sum]
      apply Finset.sum_le_sum
      intro k hkmem
      have hk : k < fftSize / 2 := lt_of_lt_of_le (Finset.mem_range.mp hkmem) hlen
      have hfq : ((frequencyForBin sr fftSize k : ℚ) : ℝ) ≤ (sr : ℝ) / 2 := by
        have := frequencyForBin_le_nyquist sr fftSize k hsr hk
        have hcast : ((frequencyForBin sr fftSize k : ℚ) : ℝ) ≤ ((sr / 2 : ℚ) : ℝ) := by
          exact_mod_cast this
        simpa using hcast
      calc mags.getD k 0 * ((frequencyForBin sr fftSize k : ℚ) : ℝ)
          ≤ mags.getD k 0 * ((sr : ℝ) / 2) :=
            mul_le_mul_of_nonneg_left hfq (list_getD_nonneg mags hm k)
        _ = (sr : ℝ) / 2 * mags.getD k 0 := by ring
    constructor
    · exact div_nonneg hnum_nonneg hsum_nonneg
    · rw [div_le_iff₀ hsum_pos]
      exact hnum_le

/-! ### Claim theorems -/

/-- Claim C1 (refuted, code bug): the program is claimed to clamp every
bin index into `[0, FFT_SIZE/2 - 1]` before reading a magnitude, but
`drawSpectralCentroid` (source lines 153 and 163) reads
`mMagSpectrum[getFftSize()/2]`: with the setup FFT size 2048 that index is
1024, one past the last valid index of the 1024-element spectrum, so the
lookup is out of range on every draw. -/
theorem drawCentroid_magnitude_index_out_of_range :
    drawCentroidBinIndex setupConfig.1 = 1024 ∧
    numBins setupConfig.1 = 1024 ∧
    ¬ drawCentroidBinIndex setupConfig.1 < numBins setupConfig.1 ∧
    (List.replicate (numBins setupConfig.1) (0 : ℚ)).get?
      (drawCentroidBinIndex setupConfig.1) = none := by
  refine ⟨rfl, rfl, by decide, ?_⟩
  rw [List.get?_eq_none]
  simp only [List.length_replicate]
  decide

/-- Claim C3: for every bin index `k` in `[0, FFT_SIZE/2)` and positive
sample rate, `binForFrequency (frequencyForBin k)` differs from `k` by at
most 1 (in fact the round trip is exact). -/
theorem roundTrip_within_one (sampleRate : ℚ) (fftSize k : ℕ)
    (hsr : 0 < sampleRate) (hk : k < fftSize / 2) :
    |(binForFrequency sampleRate fftSize (frequencyForBin sampleRate fftSize k) : ℤ)
      - (k : ℤ)| ≤ 1 := by
  rw [binForFrequency_freq sampleRate fftSize k hsr hk]
  simp

/-- Witness for C3 at sample rate 44100, FFT size 2048, bin 10. -/
theorem roundTrip_within_one_witness :
    (0 : ℚ) < 44100 ∧ 10 < 2048 / 2 ∧
      |(binForFrequency 44100 2048 (frequencyForBin 44100 2048 10) : ℤ)
        - (10 : ℤ)| ≤ 1 :=
  ⟨by norm_num, by norm_num, roundTrip_within_one 44100 2048 10 (by norm_num) (by norm_num)⟩

/-- Claim C4: construction of the monitor fails with `InvalidConfiguration`
exactly when the FFT size is not a power of two or is smaller than the
window size, succeeds exactly on the valid configurations, and in
particular succeeds on the source's setup configuration (FFT size 2048,
window size 1024).  The validation happens at construction: the monitor
value exists only when `constructMonitor` returns `ok`. -/
theorem constructMonitor_validates (fftSize windowSize : ℕ) :
    (constructMonitor fftSize windowSize = Except.error ConfigError.invalidConfiguration ↔
      ¬ ((∃ k, fftSize = 2 ^ k) ∧ windowSize ≤ fftSize)) ∧
    (constructMonitor fftSize windowSize = Except.ok ⟨fftSize, windowSize⟩ ↔
      ((∃ k, fftSize = 2 ^ k) ∧ windowSize ≤ fftSize)) ∧
    constructMonitor setupConfig.1 setupConfig.2 = Except.ok ⟨2048, 1024⟩ :=
  ⟨constructMonitor_error_iff fftSize windowSize,
   constructMonitor_ok_iff fftSize windowSize,
   (constructMonitor_ok_iff 2048 1024).mpr ⟨⟨11, by norm_num⟩, by norm_num⟩⟩

/-- Claim C9: with sample rate 44100 and FFT size 2048, the bin width is
`44100/2048` (within 0.01 of 21.53) and `frequencyForBin 10` is
`10 * 44100 / 2048` (within 0.01 of 215.33). -/
theorem binWidth_and_freqForBin_values :
    binFreqWidth 44100 2048 = 44100 / 2048 ∧
    frequencyForBin 44100 2048 10 = 10 * 44100 / 2048 ∧
    |binFreqWidth 44100 2048 - 21.53| < 1 / 100 ∧
    |frequencyForBin 44100 2048 10 - 215.33| < 1 / 100 := by
  norm_num [binFreqWidth, frequencyForBin, abs_lt]

/-- Claim C2: the spectral centroid of one analysis cycle is the
magnitude-weighted mean of bin frequencies when the total magnitude is
non-zero, and is exactly 0 on silence (total magnitude 0, in particular an
all-zero magnitude list), so the computation never divides by zero. -/
theorem spectralCentroid_weighted_mean (sampleRate : ℚ) (fftSize : ℕ) (mags : List ℝ) :
    (mags.sum ≠ 0 →
      spectralCentroid sampleRate fftSize mags =
        weightedFreqSum sampleRate fftSize mags / mags.sum) ∧
    (mags.sum = 0 → spectralCentroid sampleRate fftSize mags = 0) ∧
    ((∀ x ∈ mags, x = 0) → spectralCentroid sampleRate fftSize mags = 0) := by
  refine ⟨fun h => ?_, fun h => ?_, fun h => ?_⟩
  · rw [spectralCentroid, if_neg h]
  · rw [spectralCentroid, if_pos h]
  · rw [spectralCentroid, if_pos (List.sum_eq_zero h)]

/-- Claim C5: under a validated configuration, the frame produced by an
analysis cycle has exactly `FFT_SIZE/2` magnitude values, every magnitude
is non-negative, the centroid lies in `[0, nyquist]`, and the FFT size is
a power of two at least the window size. -/
theorem analysisFrame_invariant (fftSize windowSize : ℕ) (sampleRate : ℚ) (scale : ℝ)
    (spectrum : List (ℝ × ℝ))
    (hcfg : constructMonitor fftSize windowSize = Except.ok ⟨fftSize, windowSize⟩)
    (hsr : 0 ≤ sampleRate) (hscale : 0 < scale)
    (hlen : numBins fftSize ≤ spectrum.length) :
    (analysisFrame sampleRate fftSize scale spectrum).mags.length = fftSize / 2 ∧
    (∀ x ∈ (analysisFrame sampleRate fftSize scale spectrum).mags, 0 ≤ x) ∧
    0 ≤ (analysisFrame sampleRate fftSize scale spectrum).centroid ∧
    (analysisFrame sampleRate fftSize scale spectrum).centroid ≤ (sampleRate : ℝ) / 2 ∧
    (∃ k, fftSize = 2 ^ k) ∧ windowSize ≤ fftSize := by
  obtain ⟨hpow, hws⟩ := (constructMonitor_ok_iff fftSize windowSize).mp hcfg
  have hmlen : (analysisFrame sampleRate fftSize scale spectrum).mags.length = fftSize / 2 := by
    rw [analysisFrame]
    simp only [List.length_map, List.length_take]
    rw [numBins] at hlen ⊢
    omega
  have hmnonneg : ∀ x ∈ (analysisFrame sampleRate fftSize scale spectrum).mags, 0 ≤ x := by
    rw [analysisFrame]
    intro x hx
    simp only [List.mem_map] at hx
    obtain ⟨z, _, rfl⟩ := hx
    rw [binMagnitude]
    exact div_nonneg (Real.sqrt_nonneg _) hscale.le
  have hcent := spectralCentroid_mem_range sampleRate fftSize
    (analysisFrame sampleRate fftSize scale spectrum).mags hmnonneg (by omega) hsr
  exact ⟨hmlen, hmnonneg, hcent.1, hcent.2, hpow, hws⟩

/-- Witness for C5: FFT size 4, window size 2, sample rate 8, scale 1, and
the three-value spectrum `[(3,4), (0,0), (1,0)]`. -/
theorem analysisFrame_invariant_witness :
    constructMonitor 4 2 = Except.ok ⟨4, 2⟩ ∧
    (0 : ℚ) ≤ 8 ∧ (0 : ℝ) < 1 ∧
    numBins 4 ≤ ([((3 : ℝ), (4 : ℝ)), (0, 0), (1, 0)]).length ∧
    ((analysisFrame 8 4 1 [((3 : ℝ), (4 : ℝ)), (0, 0), (1, 0)]).mags.length = 4 / 2 ∧
     (∀ x ∈ (analysisFrame 8 4 1 [((3 : ℝ), (4 : ℝ)), (0, 0), (1, 0)]).mags, 0 ≤ x) ∧
     0 ≤ (analysisFrame 8 4 1 [((3 : ℝ), (4 : ℝ)), (0, 0), (1, 0)]).centroid ∧
     (analysisFrame 8 4 1 [((3 : ℝ), (4 : ℝ)), (0, 0), (1, 0)]).centroid ≤ ((8 : ℚ) : ℝ) / 2 ∧
     (∃ k, 4 = 2 ^ k) ∧ 2 ≤ 4) :=
  ⟨(constructMonitor_ok_iff 4 2).mpr ⟨⟨2, by norm_num⟩, by norm_num⟩,
   by norm_num, by norm_num, by simp [numBins],
   analysisFrame_invariant 4 2 8 1 [((3 : ℝ), (4 : ℝ)), (0, 0), (1, 0)]
     ((constructMonitor_ok_iff 4 2).mpr ⟨⟨2, by norm_num⟩, by norm_num⟩)
     (by norm_num) (by norm_num) (by simp [numBins])⟩

/-! ### Snapshot lemmas and claim C6 -/

theorem snapRun_history_extends (evs : List SnapEvent) (s : SnapshotState) :
    ∃ pre, (snapRun s evs).1.history = pre ++ s.history := by
  induction evs generalizing s with
  | nil => exact ⟨[], rfl⟩
  | cons e es ih =>
    cases e with
    | write v =>
      obtain ⟨pre, hp⟩ := ih { s with working := s.working ++ [v] }
      exact ⟨pre, by simpa [snapRun, snapStep] using hp⟩
    | publish =>
      obtain ⟨pre, hp⟩ := ih ⟨s.working, [], s.working :: s.history⟩
      refine ⟨pre ++ [s.working], ?_⟩
      simp only [snapRun, snapStep] at hp ⊢
      rw [hp]
      simp
    | read =>
      obtain ⟨pre, hp⟩ := ih s
      exact ⟨pre, by simpa [snapRun, snapStep] using hp⟩

/-- Claim C6: in every interleaving of the producer's atomic steps with
reader steps, each frame a read returns is complete and internally
consistent: it is either the frame published before the run began or one
of the frames fully published during the run, never a mix of two cycles.
(The hand-off is modelled from the spec's design: an atomic swap of an
immutable, completely built frame; the producer's incremental writes touch
only its private working buffer.) -/
theorem no_torn_reads (s : SnapshotState) (evs : List SnapEvent) :
    ∀ f ∈ (snapRun s evs).2, f = s.published ∨ f ∈ (snapRun s evs).1.history := by
  induction evs generalizing s with
  | nil => intro f hf; simp [snapRun] at hf
  | cons e es ih =>
    intro f hf
    cases e with
    | write v =>
      simp only [snapRun, snapStep, Option.toList, List.nil_append] at hf ⊢
      exact ih { s with working := s.working ++ [v] } f hf
    | publish =>
      simp only [snapRun, snapStep, Option.toList, List.nil_append] at hf ⊢
      rcases ih ⟨s.working, [], s.working :: s.history⟩ f hf with hpub | hhist
      · right
        obtain ⟨pre, hp⟩ := snapRun_history_extends es ⟨s.working, [], s.working :: s.history⟩
        rw [hp, hpub]
        simp
      · exact Or.inr hhist
    | read =>
      simp only [snapRun, snapStep, Option.toList] at hf ⊢
      rcases List.mem_cons.mp hf with rfl | hf2
      · exact Or.inl rfl
      · exact ih s f hf2

/-- Witness for C6: starting from published frame `[1]`, the interleaving
write 2, read, publish, read returns only complete frames. -/
theorem no_torn_reads_witness :
    [(1 : ℚ)] ∈ (snapRun ⟨[1], [], []⟩
      [SnapEvent.write 2, SnapEvent.read, SnapEvent.publish, SnapEvent.read]).2 ∧
    ([(1 : ℚ)] = (⟨[1], [], []⟩ : SnapshotState).published ∨
      [(1 : ℚ)] ∈ (snapRun ⟨[1], [], []⟩
        [SnapEvent.write 2, SnapEvent.read, SnapEvent.publish, SnapEvent.read]).1.history) :=
  ⟨by decide,
   no_torn_reads ⟨[1], [], []⟩
     [SnapEvent.write 2, SnapEvent.read, SnapEvent.publish, SnapEvent.read]
     [(1 : ℚ)] (by decide)⟩

/-! ### Accumulation lemmas and claim C8 -/

theorem feedChunk_stalled (analyze : List ℚ → List ℚ) (s : MonitorState) (chunk : List ℚ)
    (h : s.buffer.length + chunk.length < s.windowSize) :
    feedChunk analyze s chunk =
      { s with mode := MonitorMode.accumulating, buffer := s.buffer ++ chunk } := by
  rw [feedChunk]
  rw [if_neg (by simp only [List.length_append]; omega)]

/-- Claim C8: while the accumulated samples never reach the window size,
the monitor stays in Accumulating, its published frame stays the last
valid one unchanged, and the buffer just grows by the delivered samples.
`feedAll` is a total function, so the monitor can neither block nor raise
an error on stalled input. -/
theorem stalled_input_keeps_last_frame (analyze : List ℚ → List ℚ) (s : MonitorState)
    (chunks : List (List ℚ))
    (hmode : s.mode = MonitorMode.accumulating)
    (h : s.buffer.length + (chunks.map List.length).sum < s.windowSize) :
    (feedAll analyze s chunks).mode = MonitorMode.accumulating ∧
    (feedAll analyze s chunks).lastFrame = s.lastFrame ∧
    (feedAll analyze s chunks).buffer = s.buffer ++ chunks.flatten := by
  induction chunks generalizing s with
  | nil =>
    refine ⟨hmode, rfl, ?_⟩
    simp [feedAll]
  | cons c cs ih =>
    have hc : s.buffer.length + c.length < s.windowSize := by
      simp only [List.map_cons, List.sum_cons] at h
      omega
    have hstep := feedChunk_stalled analyze s c hc
    have hfold : feedAll analyze s (c :: cs) =
        feedAll analyze (feedChunk analyze s c) cs := by
      rw [feedAll, List.foldl_cons, feedAll]
    rw [hfold, hstep]
    have hrest := ih { s with mode := MonitorMode.accumulating, buffer := s.buffer ++ c }
      rfl (by simp only [List.length_append, List.map_cons, List.sum_cons] at h ⊢; omega)
    refine ⟨hrest.1, hrest.2.1, ?_⟩
    rw [hrest.2.2]
    simp [List.append_assoc]

/-- Witness for C8: window size 4, buffer `[1]`, incoming chunks `[2]` and
`[]` (the source then stops); the last frame `[5, 5]` survives unchanged. -/
theorem stalled_input_keeps_last_frame_witness :
    (MonitorState.mk 4 MonitorMode.accumulating [1] [5, 5]).mode = MonitorMode.accumulating ∧
    (MonitorState.mk 4 MonitorMode.accumulating [1] [5, 5]).buffer.length
      + (([[(2 : ℚ)], []]).map List.length).sum
      < (MonitorState.mk 4 MonitorMode.accumulating [1] [5, 5]).windowSize ∧
    ((feedAll (fun l => l.map (fun x => x * 2))
        (MonitorState.mk 4 MonitorMode.accumulating [1] [5, 5]) [[(2 : ℚ)], []]).mode
          = MonitorMode.accumulating ∧
      (feedAll (fun l => l.map (fun x => x * 2))
        (MonitorState.mk 4 MonitorMode.accumulating [1] [5, 5]) [[(2 : ℚ)], []]).lastFrame
          = (MonitorState.mk 4 MonitorMode.accumulating [1] [5, 5]).lastFrame ∧
      (feedAll (fun l => l.map (fun x => x * 2))
        (MonitorState.mk 4 MonitorMode.accumulating [1] [5, 5]) [[(2 : ℚ)], []]).buffer
          = (MonitorState.mk 4 MonitorMode.accumulating [1] [5, 5]).buffer
            ++ ([[(2 : ℚ)], []]).flatten) :=
  ⟨rfl, by decide,
   stalled_input_keeps_last_frame (fun l => l.map (fun x => x * 2))
     (MonitorState.mk 4 MonitorMode.accumulating [1] [5, 5]) [[(2 : ℚ)], []]
     rfl (by decide)⟩

/-! ### Claim C10 -/

/-- Claim C10: a mouse-down at a position outside the spectrum plot's
bounds does nothing: the state is returned unchanged and no diagnostic
line is emitted. -/
theorem mouseDown_outside_noop (st : AppState) (px py : ℚ)
    (rf : ℚ → String) (rm : ℝ → String)
    (h : st.plotBounds.containsPt px py = false) :
    mouseDown st px py rf rm = (st, []) := by
  rw [mouseDown, if_neg]
  simp [h]

/-- Witness for C10: the point (10, 10) lies outside the plot bounds
(40, 40) - (600, 400). -/
theorem mouseDown_outside_noop_witness :
    (AppState.mk ⟨40, 40, 600, 400⟩ [] 44100 2048).plotBounds.containsPt 10 10 = false ∧
    mouseDown (AppState.mk ⟨40, 40, 600, 400⟩ [] 44100 2048) 10 10
        (fun _ => "") (fun _ => "")
      = (AppState.mk ⟨40, 40, 600, 400⟩ [] 44100 2048, []) :=
  ⟨by decide,
   mouseDown_outside_noop (AppState.mk ⟨40, 40, 600, 400⟩ [] 44100 2048) 10 10
     (fun _ => "") (fun _ => "") (by decide)⟩

/-! ### Diagnostic line lemmas and claim C7 -/

theorem frequencyForBin_add_width (sr : ℚ) (fftSize k : ℕ) :
    frequencyForBin sr fftSize k + binFreqWidth sr fftSize =
      frequencyForBin sr fftSize (k + 1) := by
  rw [binFreqWidth, frequencyForBin, frequencyForBin, frequencyForBin, frequencyForBin]
  push_cast
  ring

theorem specFormatData_has_qu (b lo hi mag : List Char) :
    ("qu").data <:+: specFormatData b lo hi mag := by
  have h1 : ("qu").data <:+: (", frequency (hertz): ").data := by decide
  have h2 : (", frequency (hertz): ").data <:+: specFormatData b lo hi mag := by
    refine ⟨("bin: ").data ++ b,
      lo ++ (" - ").data ++ hi ++ (", magnitude (decibels): ").data ++ mag, ?_⟩
    simp [specFormatData, List.append_assoc]
  exact h1.trans h2

/-- Claim C7 as amended (the source line 238 spells the second field
`freqency`, not `frequency`): every in-bounds probe emits exactly one
console line `bin: <bin>, freqency (hertz): <lo> - <hi>, magnitude
(decibels): <mag>`, where the bin index is clamped below `FFT_SIZE/2`, the
two frequency fields are the probed bin's lower bound and that bound plus
one bin width (equivalently the next bin's lower bound), and the magnitude
field is the bin's magnitude converted to decibels. -/
theorem printBinInfo_emits_one_line (st : AppState) (px py : ℚ)
    (rf : ℚ → String) (rm : ℝ → String)
    (hin : st.plotBounds.containsPt px py = true)
    (hbins : 0 < numBins st.fftSize) :
    ∃ bin : ℕ, bin < numBins st.fftSize ∧
      frequencyForBin st.sampleRate st.fftSize bin + binFreqWidth st.sampleRate st.fftSize
        = frequencyForBin st.sampleRate st.fftSize (bin + 1) ∧
      (mouseDown st px py rf rm).2 =
        [binInfoLine bin (rf (frequencyForBin st.sampleRate st.fftSize bin))
          (rf (frequencyForBin st.sampleRate st.fftSize (bin + 1)))
          (rm (linearToDecibel (st.magSpectrum.getD bin 0)))] := by
  refine ⟨printBinIndex st.fftSize px st.plotBounds.x1 st.plotBounds.width, ?_,
    frequencyForBin_add_width st.sampleRate st.fftSize _, ?_⟩
  · rw [printBinIndex]
    have h1 := min_le_left (numBins st.fftSize - 1)
      (Int.toNat ⌊(numBins st.fftSize : ℚ) * (px - st.plotBounds.x1) / st.plotBounds.width⌋)
    omega
  · rw [mouseDown, if_pos (by simp [hin])]
    simp only [printBinInfo]
    rw [frequencyForBin_add_width]

/-- Witness for the amended C7 at the plot bounds (40,40)-(600,400), the
in-bounds point (100, 100), FFT size 2048 and sample rate 44100. -/
theorem printBinInfo_emits_one_line_witness :
    (AppState.mk ⟨40, 40, 600, 400⟩ [] 44100 2048).plotBounds.containsPt 100 100 = true ∧
    0 < numBins (AppState.mk ⟨40, 40, 600, 400⟩ [] 44100 2048).fftSize ∧
    (∃ bin : ℕ, bin < numBins (AppState.mk ⟨40, 40, 600, 400⟩ [] 44100 2048).fftSize ∧
      frequencyForBin 44100 2048 bin + binFreqWidth 44100 2048
        = frequencyForBin 44100 2048 (bin + 1) ∧
      (mouseDown (AppState.mk ⟨40, 40, 600, 400⟩ [] 44100 2048) 100 100
          (fun _ => "") (fun _ => "")).2 =
        [binInfoLine bin (frequencyForBin 44100 2048 bin |> fun _ => "")
          (frequencyForBin 44100 2048 (bin + 1) |> fun _ => "")
          (linearToDecibel (([] : List ℝ).getD bin 0) |> fun _ => "")]) :=
  ⟨by decide, by decide,
   printBinInfo_emits_one_line (AppState.mk ⟨40, 40, 600, 400⟩ [] 44100 2048) 100 100
     (fun _ => "") (fun _ => "") (by decide) (by decide)⟩

set_option maxRecDepth 8000 in
/-- Claim C7 as stated is refuted at a concrete probe: the emitted console
line spells `freqency`, so it admits no decomposition in the documented
form `bin: <int>, frequency (hertz): <float> - <float>, magnitude
(decibels): <float>` — any line of that form contains the letters `qu`,
which the emitted line does not. -/
theorem printBinInfo_line_not_spec_format :
    (∃ b lo hi mag : List Char,
      (printBinInfo (AppState.mk ⟨40, 40, 600, 400⟩ [] 44100 2048) 100
        (fun _ => "215.332") (fun _ => "-42.7")).data = specFormatData b lo hi mag) = False := by
  apply eq_false
  rintro ⟨b, lo, hi, mag, h⟩
  have hqu : ("qu").data <:+:
      (printBinInfo (AppState.mk ⟨40, 40, 600, 400⟩ [] 44100 2048) 100
        (fun _ => "215.332") (fun _ => "-42.7")).data := by
    rw [h]
    exact specFormatData_has_qu b lo hi mag
  have hbin : printBinIndex 2048 100 40 ((600 : ℚ) - 40) = 109 := by
    rw [printBinIndex, numBins]
    norm_num
    rfl
  have hline : printBinInfo (AppState.mk ⟨40, 40, 600, 400⟩ [] 44100 2048) 100
      (fun _ => "215.332") (fun _ => "-42.7")
      = "bin: 109, freqency (hertz): 215.332 - 215.332, magnitude (decibels): -42.7" := by
    simp only [printBinInfo, Rect.width]
    rw [hbin]
    decide
  rw [hline] at hqu
  revert hqu
  decide

end InputAnalyzer
